import Mathlib

/-!
# FieldVision session core: a shallow embedding

Verification development for the FieldVision repository's session/turn state
machine and tool-call chaining protocol.  The definitions below are shallow
embeddings of the Python source:

* `src/app/gemini_service.py` — `LiveSession` (send operations, turn
  accumulator, `_handle_response`) and `GeminiLiveService.handle_tool_call`;
* `src/app/work_orders.py` — the three-stage work-order store;
* `src/app/audit.py` — `AuditLogger.log_event` severity clamping;
* `src/app/fieldvision_agent/tools.py` — the agent revision of
  `log_safety_event`.

Modelling conventions: byte strings are `List Nat` (only emptiness and length
matter to the code under study); wall-clock timestamps are a `Nat` parameter
`now` threaded into each operation (the source derives both `generate_order_id`
and the ISO timestamps from the current time); Python exceptions are explicit
`PyError` values; Python `dict.get(k, default)` on optional arguments is
`Option.getD`; a Python statement whose effects precede a raise is modelled by
returning the mutated state together with an `Option PyError` / `Except`.
Free-text `message` fields of tool results are not modelled; no claim depends
on them.
-/

/-- A Python exception escaping a modelled operation. -/
inductive PyError where
  | nameError (name : String)
  | ioError (msg : String)
deriving Repr, DecidableEq

/-- Byte strings: only emptiness and length are inspected by the code. -/
abbrev Bytes := List Nat

/-- `types.Content`: one role-tagged history entry (user text, or the list of
accumulated model text parts). Audio is never retained in history. -/
inductive Content where
  | user (text : String)
  | model (parts : List String)
deriving Repr, DecidableEq

/-! ## LiveSession send/accumulator state (gemini_service.py, class LiveSession) -/

/-- The mutable per-session state of `LiveSession` that the claims touch:
`_resume_handle`, `_turn_in_progress`, `_current_ai_response_parts`, the
pending idle-completion timer (`_turn_complete_timer`, modelled as a flag:
a timer task is pending or not), the shared `history` list, and the
`_latest_frame` evidence buffer. -/
structure LiveState where
  resumeHandle : Option String := none
  turnInProgress : Bool := false
  parts : List String := []
  timer : Bool := false
  history : List Content := []
  latestFrame : Option Bytes := none
deriving Repr, DecidableEq

/-- Python truthiness of the `bytes`-or-`None` frame buffer: `None` and `b""`
are falsy. -/
def frameTruthy : Option Bytes → Bool
  | none => false
  | some b => b ≠ []

/-- Maximum video frame size accepted by `send_video_frame` (512 KiB). -/
def maxFrameSize : Nat := 512 * 1024

/-- Maximum audio chunk size accepted by `send_audio` (32 KiB). -/
def maxChunkSize : Nat := 32 * 1024

/-- Maximum text length accepted by `send_text` (4000 characters). -/
def maxTextLength : Nat := 4000

/-- `LiveSession.send_video_frame` (gemini_service.py lines 591–623).
Inputs: whether `self._session and self._running` hold (`connected`), the
current `_latest_frame` buffer, the payload and whether the transport send
would fail (`transportFails` models the exception raised by
`self._session.send`, which the source catches and logs).  Result: the new
`_latest_frame`, the payload forwarded to the backend (`none` when nothing is
sent), wrapped in `Except` to show that no exception escapes to the caller. -/
def sendVideoFrame (connected : Bool) (latestFrame : Option Bytes)
    (jpegData : Bytes) (transportFails : Bool) :
    Except PyError (Option Bytes × Option Bytes) :=
  if ¬ connected then .ok (latestFrame, none)
  else if jpegData = [] then .ok (latestFrame, none)
  else if jpegData.length > maxFrameSize then
    -- "Skip oversized frames instead of truncating": log a warning, return
    .ok (latestFrame, none)
  else
    -- try: buffer the frame, then send; except: log the error
    if transportFails then .ok (some jpegData, none)
    else .ok (some jpegData, some jpegData)

/-- Python `str.strip()` with no argument: remove leading and trailing
whitespace characters. -/
def pyIsSpace (c : Char) : Bool :=
  c = ' ' ∨ c = '\t' ∨ c = '\n' ∨ c = '\r' ∨ c = '\x0b' ∨ c = '\x0c'

/-- Python `str.strip()` on the character list of a string. -/
def pyStrip (s : String) : String :=
  String.mk (((s.toList.dropWhile pyIsSpace).reverse.dropWhile pyIsSpace).reverse)

/-- `text = text[:max_text_length]` when over the limit (send_text lines
641–644): truncation happens before the strip applied when building the
history entry. -/
def truncateText (text : String) : String :=
  if text.length > maxTextLength then String.mk (text.toList.take maxTextLength)
  else text

/-- `LiveSession.send_text` (gemini_service.py lines 625–675).
Validates, truncates to 4000 characters, appends the stripped message to
`self.history` as a `user` turn, and only then attempts the backend send,
catching any transport failure.  Result: the new history and the content sent
to the backend (`none` when nothing was sent), wrapped in `Except` to show that
no exception escapes to the caller. -/
def sendText (connected : Bool) (history : List Content) (text : String)
    (transportFails : Bool) :
    Except PyError (List Content × Option Content) :=
  if ¬ connected then .ok (history, none)
  else if text = "" ∨ pyStrip text = "" then .ok (history, none)
  else
    let userContent := Content.user (pyStrip (truncateText text))
    let history1 := history ++ [userContent]
    -- try: send only the new message; except: log the error
    if transportFails then .ok (history1, none)
    else .ok (history1, some userContent)

/-- `LiveSession._finalize_turn` (gemini_service.py lines 819–842).
Cancels the pending idle timer, returns immediately when no turn is in
progress, otherwise clears the in-progress flag, flushes the accumulated text
parts as one `model` history entry (skipping when none were accumulated), and
reports whether the `on_turn_complete` callback fired. -/
def finalizeTurn (st : LiveState) : LiveState × Bool :=
  let st := { st with timer := false }
  if ¬ st.turnInProgress then (st, false)
  else
    let st := { st with turnInProgress := false }
    let st :=
      if st.parts ≠ [] then
        { st with history := st.history ++ [Content.model st.parts], parts := [] }
      else st
    (st, true)

/-! ## Inbound stream handling (gemini_service.py, LiveSession._handle_response) -/

/-- The function-call payload of an inbound tool-call request
(`types.FunctionCall`: name, call id, arguments). Argument contents are
irrelevant to the receive path itself. -/
structure FunctionCallMsg where
  name : String
  id : String
deriving Repr, DecidableEq

/-- One part of an inbound `model_turn`: optional inline data (mime type and
bytes) and optional text. -/
structure RespPart where
  inlineData : Option (String × Bytes) := none
  text : Option String := none
deriving Repr, DecidableEq

/-- Inbound `server_content`: an optional `model_turn` with parts, and the
`turn_complete` flag. -/
structure ServerContent where
  modelTurn : Option (List RespPart) := none
  turnComplete : Bool := false
deriving Repr, DecidableEq

/-- One inbound stream event (`response` in `_receive_loop`):
`session_resumption_update` carrying a `new_handle` (itself optional),
`server_content`, and `tool_call` carrying its `function_calls`. -/
structure Response where
  sessionResumptionUpdate : Option (Option String) := none
  serverContent : Option ServerContent := none
  toolCall : Option (List FunctionCallMsg) := none
deriving Repr, DecidableEq

/-- An outbound effect of the receive path: a callback invocation or a send
back into the stream. -/
inductive SentOut where
  | audioOut (data : Bytes)
  | textOut (t : String)
  | turnCompleteOut
  | toolResponseOut (name : String) (id : String)
deriving Repr, DecidableEq

/-- The audio half of the part-processing loop body: inline data with an
`audio/` mime type is forwarded to `on_audio` and resets the idle timer. -/
def processInline (st : LiveState) : Option (String × Bytes) →
    LiveState × List SentOut
  | some (mime, data) =>
      if mime.startsWith "audio/" then ({ st with timer := true }, [.audioOut data])
      else (st, [])
  | none => (st, [])

/-- The text half of the part-processing loop body: non-empty text (Python
truthiness: `part.text` is falsy when empty) is forwarded to `on_text`,
appended to `_current_ai_response_parts`, and resets the timer. -/
def processText (st : LiveState) : Option String → LiveState × List SentOut
  | some t =>
      if t ≠ "" then
        ({ st with parts := st.parts ++ [t], timer := true }, [.textOut t])
      else (st, [])
  | none => (st, [])

/-- Processing of one part of an inbound `model_turn` (the body of the
`for part in content.model_turn.parts` loop): the audio handling runs first,
then the text handling on the resulting state. -/
def processPart (st : LiveState) (p : RespPart) : LiveState × List SentOut :=
  let r1 := processInline st p.inlineData
  let r2 := processText r1.1 p.text
  (r2.1, r1.2 ++ r2.2)

/-- Fold `processPart` over the parts of a `model_turn`. -/
def processParts (st : LiveState) : List RespPart → LiveState × List SentOut
  | [] => (st, [])
  | p :: ps =>
      let r := processPart st p
      let rest := processParts r.1 ps
      (rest.1, r.2 ++ rest.2)

/-- The `model_turn` phase of `server_content` handling: a present
`model_turn` marks the turn in progress and (re)starts the idle timer before
its parts are processed. -/
def modelTurnPhase (st : LiveState) : Option (List RespPart) →
    LiveState × List SentOut
  | some ps => processParts { st with turnInProgress := true, timer := true } ps
  | none => (st, [])

/-- The `turn_complete` phase of `server_content` handling: a native
turn-complete signal finalizes the turn, notifying the client when the
callback fires. -/
def turnCompletePhase (st : LiveState) : Bool → LiveState × List SentOut
  | true =>
      let fin := finalizeTurn st
      (fin.1, if fin.2 then [.turnCompleteOut] else [])
  | false => (st, [])

/-- Handling of inbound `server_content`: the `model_turn` phase followed by
the `turn_complete` check. -/
def handleServerContent (st : LiveState) (c : ServerContent) :
    LiveState × List SentOut :=
  let r1 := modelTurnPhase st c.modelTurn
  let r2 := turnCompletePhase r1.1 c.turnComplete
  (r2.1, r1.2 ++ r2.2)

/-- Result of `_handle_response` on one inbound event: the mutated session
state, the effects performed before any exception, and the exception escaping
the handler, if any (caught and logged by `_receive_loop`, which then proceeds
to the next event). -/
structure HandleResult where
  state : LiveState
  outs : List SentOut
  err : Option PyError
deriving Repr, DecidableEq

/-- The `session_resumption_update` phase of `_handle_response`: a present
update overwrites `_resume_handle` with its `new_handle` value. -/
def resumptionPhase (st : LiveState) : Option (Option String) → LiveState
  | some h => { st with resumeHandle := h }
  | none => st

/-- The `server_content` phase of `_handle_response`. -/
def serverContentPhase (st : LiveState) : Option ServerContent →
    LiveState × List SentOut
  | some c => handleServerContent st c
  | none => (st, [])

/-- `LiveSession._handle_response` (gemini_service.py lines 715–800).
Captures a resumption-handle update, processes server content through the
turn accumulator, then enters the tool-call branch.  The body of that branch
reads `fc.name`, but no binding of `fc` exists anywhere in the function — the
`for fc in response.tool_call.function_calls` header is absent (the branch
body is indented one level deeper than the `if`, where the loop body would
sit) — so its very first statement raises `NameError: name 'fc' is not
defined` before any tool handler runs or any tool response is sent. -/
def handleResponse (st : LiveState) (resp : Response) : HandleResult :=
  let st1 := resumptionPhase st resp.sessionResumptionUpdate
  let r2 := serverContentPhase st1 resp.serverContent
  match resp.toolCall with
  | some _ => { state := r2.1, outs := r2.2, err := some (.nameError "fc") }
  | none => { state := r2.1, outs := r2.2, err := none }

/-- One iteration of `LiveSession._receive_loop` on an inbound event: the
handler runs and any exception it raises is caught and logged, after which the
loop keeps listening. -/
def receiveLoopIteration (st : LiveState) (resp : Response) :
    LiveState × List SentOut :=
  let r := handleResponse st resp
  (r.state, r.outs)

/-! ## Work-order store (work_orders.py) -/

/-- Work-order lifecycle status. -/
inductive WOStatus where
  | pendingApproval
  | approved
  | completed
deriving Repr, DecidableEq

/-- Position of a status in the lifecycle `pending_approval → approved →
completed`. -/
def statusRank : WOStatus → Nat
  | .pendingApproval => 0
  | .approved => 1
  | .completed => 2

/-- The requester identity (`requested_by` dict). -/
structure Requester where
  id : String
  name : String
  role : String
deriving Repr, DecidableEq

/-- A stored work order.  `generate_order_id` and the ISO timestamps are both
derived from the current time, modelled by the `Nat` clock value `now` at the
moment of creation or movement. -/
structure Order where
  orderId : Nat
  status : WOStatus
  priority : String
  equipment : String
  description : String
  requestedBy : Requester
  badgeVerified : Bool
  createdAt : Nat
  approvedAt : Option Nat
  completedAt : Option Nat
  escalatedTo : Option String
deriving Repr, DecidableEq

/-- The three disjoint stores (pending_orders.json, approved_orders.json,
completed_orders.json). -/
structure WOState where
  pending : List Order := []
  approved : List Order := []
  completed : List Order := []
deriving Repr, DecidableEq

/-- `create_work_order` (work_orders.py lines 30–53): build an order already
in `approved` status and append it to the approved store. -/
def createWorkOrder (st : WOState) (now : Nat)
    (equipmentId priority description : String) (requestedBy : Requester) :
    WOState × Order :=
  let order : Order :=
    { orderId := now, status := .approved, priority := priority
      equipment := equipmentId, description := description
      requestedBy := requestedBy, badgeVerified := true
      createdAt := now, approvedAt := some now, completedAt := none
      escalatedTo := none }
  ({ st with approved := st.approved ++ [order] }, order)

/-- `escalate_work_order` (work_orders.py lines 55–77): build an order in
`pending_approval` status with an escalation target and append it to the
pending store. -/
def escalateWorkOrder (st : WOState) (now : Nat)
    (equipmentId priority description : String) (requestedBy : Requester)
    (escalateTo : String) : WOState × Order :=
  let order : Order :=
    { orderId := now, status := .pendingApproval, priority := priority
      equipment := equipmentId, description := description
      requestedBy := requestedBy, badgeVerified := true
      createdAt := now, approvedAt := none, completedAt := none
      escalatedTo := some escalateTo }
  ({ st with pending := st.pending ++ [order] }, order)

/-- Remove the first element satisfying `p` from a list, returning it with the
remaining elements in order — the `for i, order in enumerate(...): ...
list.pop(i)` pattern of `approve_pending_order` and `complete_order`. -/
def extractFirst (p : Order → Bool) : List Order → Option (Order × List Order)
  | [] => none
  | o :: rest =>
      if p o then some (o, rest)
      else
        match extractFirst p rest with
        | some (x, l) => some (x, o :: l)
        | none => none

/-- `approve_pending_order` (work_orders.py lines 95–108): find the first
pending order with the given id, advance its status to `approved`, stamp
`approved_at`, append it to the approved store and remove it from pending.
Returns `none` (and leaves the stores unchanged) when the id is not pending. -/
def approvePendingOrder (st : WOState) (now : Nat) (orderId : Nat) :
    WOState × Option Order :=
  match extractFirst (fun o => o.orderId = orderId) st.pending with
  | none => (st, none)
  | some (o, rest) =>
      let moved := { o with status := .approved, approvedAt := some now }
      ({ st with pending := rest, approved := st.approved ++ [moved] }, some moved)

/-- `complete_order` (work_orders.py lines 110–123): find the first approved
order with the given id, advance its status to `completed`, stamp
`completed_at`, append it to the completed store and remove it from approved. -/
def completeOrder (st : WOState) (now : Nat) (orderId : Nat) :
    WOState × Option Order :=
  match extractFirst (fun o => o.orderId = orderId) st.approved with
  | none => (st, none)
  | some (o, rest) =>
      let moved := { o with status := .completed, completedAt := some now }
      ({ st with approved := rest, completed := st.completed ++ [moved] }, some moved)

/-- One store operation, tagged with the clock value at which it runs (the
source derives order ids and timestamps from the current time). -/
inductive WOOp where
  | create (now : Nat) (equipmentId priority description : String) (rb : Requester)
  | escalate (now : Nat) (equipmentId priority description : String)
      (rb : Requester) (escalateTo : String)
  | approve (now : Nat) (orderId : Nat)
  | complete (now : Nat) (orderId : Nat)
deriving Repr, DecidableEq

/-- Apply one store operation. -/
def applyWOOp (st : WOState) : WOOp → WOState
  | .create now e p d rb => (createWorkOrder st now e p d rb).1
  | .escalate now e p d rb esc => (escalateWorkOrder st now e p d rb esc).1
  | .approve now oid => (approvePendingOrder st now oid).1
  | .complete now oid => (completeOrder st now oid).1

/-- The order ids stored in a list. -/
def idsOf (l : List Order) : List Nat := l.map Order.orderId

/-- All order ids across the three stores. -/
def allIds (st : WOState) : List Nat :=
  idsOf st.pending ++ idsOf st.approved ++ idsOf st.completed

/-- Store well-formedness: every order carries the status of the store holding
it, and no order id occurs in two stores (nor twice in one) — "an order exists
in exactly one store at a time". -/
def storesOk (st : WOState) : Prop :=
  (∀ o ∈ st.pending, o.status = .pendingApproval) ∧
  (∀ o ∈ st.approved, o.status = .approved) ∧
  (∀ o ∈ st.completed, o.status = .completed) ∧
  (allIds st).Nodup

/-- Creation operations must run at a clock value whose generated order id is
not already in use (in the source, `generate_order_id` is the current
timestamp; two creations in the same second would collide). -/
def opFresh (st : WOState) : WOOp → Prop
  | .create now _ _ _ _ => now ∉ allIds st
  | .escalate now _ _ _ _ _ => now ∉ allIds st
  | .approve _ _ => True
  | .complete _ _ => True

/-- The store an order id currently sits in, read off as its lifecycle
status. -/
def whereIs (st : WOState) (oid : Nat) : Option WOStatus :=
  if oid ∈ idsOf st.pending then some .pendingApproval
  else if oid ∈ idsOf st.approved then some .approved
  else if oid ∈ idsOf st.completed then some .completed
  else none

/-! ## Audit trail (audit.py) and tool-call router (gemini_service.py) -/

/-- `min(max(severity, 1), 5)` — the clamp applied by `AuditLogger.log_event`
(audit.py line 125). -/
def clampSeverity (s : Int) : Int := min (max s 1) 5

/-- A stored `SafetyEvent` (audit.py dataclass).  The `metadata` dict is
modelled by its only populated key, `evidence_url`. -/
structure SafetyEvent where
  timestamp : Nat
  sessionId : String
  eventType : String
  severity : Int
  description : String
  source : String
  evidenceUrl : Option String
deriving Repr, DecidableEq

/-- The arguments dict of a tool call.  Each key may be absent; the handlers
read them with `dict.get(key, default)`. -/
structure ToolArgs where
  eventType : Option String := none
  severity : Option Int := none
  description : Option String := none
  equipmentId : Option String := none
  priority : Option String := none
  employeeId : Option String := none
  employeeName : Option String := none
  department : Option String := none
deriving Repr, DecidableEq

/-- The pending work-order request stored on the session by the
`create_work_order` tool (`session.pending_work_order`).  The source uses a
dict that is either fully populated or `{}`; the empty dict is modelled as
`none` (reads go through `dict.get(key, default)`, on which the two are
indistinguishable). -/
structure PendingWO where
  equipmentId : String
  priority : String
  description : String
deriving Repr, DecidableEq

/-- The fields of a users.json record read by the badge-verification handler:
`role` and `permissions`. -/
structure UserRec where
  role : String
  permissions : List String
deriving Repr, DecidableEq

/-- The per-session state touched by `GeminiLiveService.handle_tool_call`:
the `_latest_frame` evidence buffer and `pending_work_order`. -/
structure SvcSession where
  latestFrame : Option Bytes := none
  pendingWorkOrder : Option PendingWO := none
deriving Repr, DecidableEq

/-- The service-level state visible to `handle_tool_call`: the session looked
up in `_active_sessions` (absent when the id is unknown), the users.json
directory, the in-memory audit trail, and the work-order stores. -/
structure SvcCtx where
  session : Option SvcSession := none
  users : List (String × UserRec) := []
  audit : List SafetyEvent := []
  wo : WOState := {}
deriving Repr, DecidableEq

/-- `dict.get` on the users.json directory. -/
def dictGet : List (String × UserRec) → String → Option UserRec
  | [], _ => none
  | (k, v) :: rest, key => if k = key then some v else dictGet rest key

/-- The body of the evidence-capture `try` block in
`GeminiLiveService.handle_tool_call` (gemini_service.py lines 295–311).  Its
first statement after the directory setup evaluates `datetime.now()`, but
gemini_service.py never imports `datetime` (neither at module level nor inside
the block, which imports only `os` and `pathlib.Path`), so the block raises
`NameError: name 'datetime' is not defined` before any frame is written; the
`except` clause logs `evidence_capture_failed` and leaves `evidence_url` as
`None`. -/
def captureEvidenceAttempt : Except PyError String :=
  .error (.nameError "datetime")

/-- Structured result returned by a tool handler (the free-text `message`
field is not modelled). -/
structure ToolResult where
  status : String
  eventId : Option Nat := none
  evidenceCaptured : Option Bool := none
  orderId : Option Nat := none
deriving Repr, DecidableEq

/-- The `pending_work_order` dict built by the `create_work_order` branch
from the tool arguments (gemini_service.py lines 338–342). -/
def pendingRequestOf (args : ToolArgs) : PendingWO :=
  { equipmentId := args.equipmentId.getD ""
    priority := args.priority.getD "medium"
    description := args.description.getD "" }

/-- Clear `session.pending_work_order` (`session.pending_work_order = {}`)
when the session exists. -/
def clearPending : Option SvcSession → Option SvcSession
  | some s => some { s with pendingWorkOrder := none }
  | none => none

/-- `pending.get("equipment_id", "unknown")` etc. on the possibly-empty
pending request. -/
def pendingEquipment : Option PendingWO → String
  | some p => p.equipmentId
  | none => "unknown"

def pendingPriority : Option PendingWO → String
  | some p => p.priority
  | none => "medium"

def pendingDescription : Option PendingWO → String
  | some p => p.description
  | none => ""

/-- `GeminiLiveService.handle_tool_call` (gemini_service.py lines 272–440).
Inputs beyond the call itself: the clock value `now` (order ids, timestamps)
and whether the append of the audit record to the log file would fail
(`auditWriteFails` models an I/O exception inside
`AuditLogger._append_to_file`, audit.py lines 148–152, which has no exception
handling; neither does `log_event` nor the `log_safety_event` branch here, so
the exception escapes the tool call).  The result pairs the mutated state
(mutations performed before a raise persist) with either the structured tool
result or the escaping exception. -/
def handleToolCall (ctx : SvcCtx) (sessionId : String) (functionName : String)
    (args : ToolArgs) (now : Nat) (auditWriteFails : Bool) :
    SvcCtx × Except PyError ToolResult :=
  if functionName = "log_safety_event" then
    -- Phase 2: capture visual proof if available
    let evidenceUrl : Option String :=
      match ctx.session with
      | some s =>
          if frameTruthy s.latestFrame ∧ args.severity.getD 1 ≥ 3 then
            match captureEvidenceAttempt with
            | .ok url => some url
            | .error _ => none  -- except: log evidence_capture_failed
          else none
      | none => none
    -- audit_logger.log_event: build the event with clamped severity and store
    -- it in memory, then append it to the log file (which may raise).
    let event : SafetyEvent :=
      { timestamp := now, sessionId := sessionId
        eventType := args.eventType.getD "unknown"
        severity := clampSeverity (args.severity.getD 1)
        description := args.description.getD ""
        source := "ai", evidenceUrl := evidenceUrl }
    let ctx1 := { ctx with audit := ctx.audit ++ [event] }
    if auditWriteFails then (ctx1, .error (.ioError "audit append failed"))
    else
      (ctx1, .ok { status := "logged", eventId := some event.timestamp
                   evidenceCaptured := some evidenceUrl.isSome })
  else if functionName = "create_work_order" then
    -- Step 1: store the request on the session; do NOT create an order yet.
    let req := pendingRequestOf args
    let ctx1 :=
      match ctx.session with
      | some s => { ctx with session := some { s with pendingWorkOrder := some req } }
      | none => ctx
    (ctx1, .ok { status := "badge_verification_required" })
  else if functionName = "verify_badge" then
    -- Step 2: look up the badge and check permissions.
    let badgeEmployeeId := args.employeeId.getD ""
    let badgeName := args.employeeName.getD ""
    let pending :=
      match ctx.session with
      | some s => s.pendingWorkOrder
      | none => none
    match dictGet ctx.users badgeEmployeeId with
    | none =>
        (ctx, .ok { status := "badge_not_found" })
    | some badgeUser =>
        if "create_work_order" ∈ badgeUser.permissions then
          let r := createWorkOrder ctx.wo now (pendingEquipment pending)
              (pendingPriority pending) (pendingDescription pending)
              { id := badgeEmployeeId, name := badgeName, role := badgeUser.role }
          ({ ctx with wo := r.1, session := clearPending ctx.session },
           .ok { status := "authorized", orderId := some r.2.orderId })
        else
          let r := escalateWorkOrder ctx.wo now (pendingEquipment pending)
              (pendingPriority pending) (pendingDescription pending)
              { id := badgeEmployeeId, name := badgeName, role := badgeUser.role }
              "sup_007"
          ({ ctx with wo := r.1, session := clearPending ctx.session },
           .ok { status := "escalated", orderId := some r.2.orderId })
  else
    (ctx, .ok { status := "error" })

/-! ## The agent revision of log_safety_event (fieldvision_agent/tools.py) -/

/-- The event dict written to `logs/audit_<session>.json` by the tools.py
revision of `log_safety_event` (tools.py lines 74–97).  Note: the severity is
stored raw, with no clamping anywhere on this path. -/
structure AgentEventData where
  sessionId : String
  eventType : String
  severity : Int
  description : String
  timestamp : Nat
  evidenceUrl : Option String
  source : String
deriving Repr, DecidableEq

/-- Result of the tools.py `log_safety_event`: what was appended to the audit
file (`none` when the write failed and was swallowed), and the acknowledgment
dict returned to the caller. -/
structure AgentLogResult where
  storedEvent : Option AgentEventData
  ackStatus : String
  ackSeverity : Int
  ackEvidenceCaptured : Bool
deriving Repr, DecidableEq

/-- `log_safety_event` (fieldvision_agent/tools.py lines 44–128).  Evidence is
attempted when a frame is buffered for the session and the raw severity is at
least 3; `_save_evidence_sync` catches its own failures and returns `None`
(`saveEvidenceFails`).  The audit-file write sits in a `try/except` that logs
`audit_log_write_failed` and continues (`auditWriteFails`), and the function
always returns its structured acknowledgment. -/
def agentLogSafetyEvent (sessionFrame : Option Bytes) (sessionId : String)
    (eventType : String) (severity : Int) (description : String) (now : Nat)
    (saveEvidenceFails auditWriteFails : Bool) : AgentLogResult :=
  let evidenceUrl : Option String :=
    if frameTruthy sessionFrame ∧ severity ≥ 3 then
      if saveEvidenceFails then none
      else some ("/static/evidence/evidence_" ++ sessionId ++ ".jpg")
    else none
  let eventData : AgentEventData :=
    { sessionId := sessionId, eventType := eventType, severity := severity
      description := description, timestamp := now
      evidenceUrl := evidenceUrl, source := "ai" }
  { storedEvent := if auditWriteFails then none else some eventData
    ackStatus := "logged"
    ackSeverity := severity
    ackEvidenceCaptured := evidenceUrl.isSome }

/-! ## Concrete instances used by closed theorems and witnesses -/

/-- Is an outbound effect a tool-response send back into the stream? -/
def isToolResponseOut : SentOut → Bool
  | .toolResponseOut _ _ => true
  | _ => false

/-- A fresh session state. -/
def liveSt0 : LiveState := {}

/-- An inbound stream event carrying one tool-call request. -/
def respToolCall : Response :=
  { toolCall := some [{ name := "log_safety_event", id := "call-1" }] }

/-- A session with a buffered video frame and no pending work order. -/
def sessWithFrame : SvcSession := { latestFrame := some [7, 7, 7] }

/-- Service state holding that session. -/
def ctxWithFrame : SvcCtx := { session := some sessWithFrame }

/-- `log_safety_event` arguments at severity 3. -/
def argsSev3 : ToolArgs :=
  { eventType := some "hazard_detected", severity := some 3
    description := some "no guard rail" }

/-- `log_safety_event` arguments at severity 2. -/
def argsSev2 : ToolArgs :=
  { eventType := some "missing_ppe", severity := some 2
    description := some "no gloves" }

/-- An empty work-order store state. -/
def woSt0 : WOState := {}

/-- A concrete creation operation at clock value 1. -/
def woOp0 : WOOp :=
  .create 1 "pump-7" "high" "seal leak" { id := "tech_042", name := "Alex", role := "technician" }

/-- A turn in progress holding one accumulated text part. -/
def liveStInProgress : LiveState :=
  { turnInProgress := true, parts := ["Wear your gloves."], timer := true }

/-- A user directory with one authorized and one unauthorized employee. -/
def usersDemo : List (String × UserRec) :=
  [("tech_042", { role := "technician", permissions := ["create_work_order"] }),
   ("int_001", { role := "intern", permissions := [] })]

/-- A concrete pending work-order request. -/
def pendingPump7 : PendingWO :=
  { equipmentId := "pump-7", priority := "high", description := "seal leak" }

/-- A session holding a pending work-order request. -/
def sessWithPending : SvcSession :=
  { pendingWorkOrder := some pendingPump7 }

/-- Service state for the badge-verification scenarios. -/
def ctxVerify : SvcCtx := { session := some sessWithPending, users := usersDemo }

/-- `verify_badge` arguments naming the authorized technician. -/
def argsBadgeTech : ToolArgs :=
  { employeeId := some "tech_042", employeeName := some "Alex" }

/-- `create_work_order` tool arguments. -/
def argsCreateWO : ToolArgs :=
  { equipmentId := some "pump-7", priority := some "high"
    description := some "seal leak" }

/-! ## Theorems -/

/-- C9: `send_video_frame` with an empty payload, or with a payload larger
than 512 KiB, forwards zero bytes to the backend stream (the frame is skipped
entirely, never truncated) and raises no exception to the caller.  The
`_latest_frame` buffer is also left untouched on these paths. -/
theorem send_video_frame_drops_empty_and_oversized
    (latestFrame : Option Bytes) (jpegData : Bytes) (transportFails : Bool)
    (h : jpegData = [] ∨ jpegData.length > maxFrameSize) :
    sendVideoFrame true latestFrame jpegData transportFails =
      .ok (latestFrame, none) := by
  rcases h with h | h
  · simp [sendVideoFrame, h]
  · have hne : jpegData ≠ [] := by
      intro he
      rw [he] at h
      simp at h
    simp [sendVideoFrame, hne, h]

/-- Witness for C9: a 600 KiB frame (and the empty-payload case) at concrete
inputs. -/
theorem send_video_frame_drops_witness :
    ((List.replicate 614400 (0 : Nat) : Bytes) = [] ∨
      (List.replicate 614400 (0 : Nat) : Bytes).length > maxFrameSize) ∧
    sendVideoFrame true none (List.replicate 614400 (0 : Nat)) false =
      .ok (none, none) :=
  ⟨Or.inr (by rw [List.length_replicate]; norm_num [maxFrameSize]),
   send_video_frame_drops_empty_and_oversized none _ false
     (Or.inr (by rw [List.length_replicate]; norm_num [maxFrameSize]))⟩

/-- C10: `send_text` on a connected session with non-whitespace text appends
the stripped (truncated at 4000 characters) message to history as a user turn
before the backend send is attempted; the entry is appended whether or not the
transport send fails, and no exception escapes. -/
theorem send_text_appends_history_and_never_raises
    (history : List Content) (text : String) (transportFails : Bool)
    (h : pyStrip text ≠ "") :
    ∃ sent,
      sendText true history text transportFails =
        .ok (history ++ [Content.user (pyStrip (truncateText text))], sent) := by
  have hne : ¬ (text = "" ∨ pyStrip text = "") := by
    rintro (he | he)
    · exact h (by rw [he]; rfl)
    · exact h he
  refine ⟨if transportFails then none
          else some (Content.user (pyStrip (truncateText text))), ?_⟩
  by_cases ht : transportFails <;> simp [sendText, hne, ht]

/-- Witness for C10: concrete whitespace-padded text through a failing
transport still lands in history. -/
theorem send_text_appends_history_witness :
    pyStrip "  check the valve  " ≠ "" ∧
    ∃ sent,
      sendText true [] "  check the valve  " true =
        .ok ([] ++ [Content.user (pyStrip (truncateText "  check the valve  "))],
             sent) :=
  ⟨by decide,
   send_text_appends_history_and_never_raises [] "  check the valve  " true
     (by decide)⟩

/-- Finalizing an idle accumulator whose timer flag is already cleared is a
complete no-op. -/
theorem finalizeTurn_idle_fixed (s : LiveState) (h : s.turnInProgress = false)
    (ht : s.timer = false) : finalizeTurn s = (s, false) := by
  cases s
  simp_all [finalizeTurn]

/-- C7: turn finalization is idempotent.  For a turn in progress with
accumulated text parts, the first finalize appends exactly one model entry to
history and clears the accumulator; running finalize again on the result is a
no-op (same state, no callback); and finalizing while IDLE (no turn in
progress) changes neither history nor the accumulator (parts, in-progress
flag) and fires no callback. -/
theorem finalize_turn_idempotent (st : LiveState)
    (hIn : st.turnInProgress = true) (hParts : st.parts ≠ []) :
    ((finalizeTurn st).1.history = st.history ++ [Content.model st.parts] ∧
     (finalizeTurn st).1.parts = [] ∧
     (finalizeTurn st).1.turnInProgress = false ∧
     (finalizeTurn st).2 = true) ∧
    finalizeTurn (finalizeTurn st).1 = ((finalizeTurn st).1, false) ∧
    (∀ s : LiveState, s.turnInProgress = false →
       (finalizeTurn s).1.history = s.history ∧
       (finalizeTurn s).1.parts = s.parts ∧
       (finalizeTurn s).1.turnInProgress = false ∧
       (finalizeTurn s).2 = false) := by
  refine ⟨?_, ?_, ?_⟩
  · simp [finalizeTurn, hIn, hParts]
  · have h1 : (finalizeTurn st).1.turnInProgress = false := by
      simp [finalizeTurn, hIn, hParts]
    have h2 : (finalizeTurn st).1.timer = false := by
      simp [finalizeTurn, hIn, hParts]
    exact finalizeTurn_idle_fixed _ h1 h2
  · intro s hs
    simp [finalizeTurn, hs]

/-- Witness for C7: the idempotence theorem at a concrete in-progress turn. -/
theorem finalize_turn_idempotent_witness :
    (liveStInProgress.turnInProgress = true ∧ liveStInProgress.parts ≠ []) ∧
    (((finalizeTurn liveStInProgress).1.history =
        liveStInProgress.history ++ [Content.model liveStInProgress.parts] ∧
      (finalizeTurn liveStInProgress).1.parts = [] ∧
      (finalizeTurn liveStInProgress).1.turnInProgress = false ∧
      (finalizeTurn liveStInProgress).2 = true) ∧
     finalizeTurn (finalizeTurn liveStInProgress).1 =
       ((finalizeTurn liveStInProgress).1, false) ∧
     (∀ s : LiveState, s.turnInProgress = false →
        (finalizeTurn s).1.history = s.history ∧
        (finalizeTurn s).1.parts = s.parts ∧
        (finalizeTurn s).1.turnInProgress = false ∧
        (finalizeTurn s).2 = false)) :=
  ⟨⟨by decide, by decide⟩,
   finalize_turn_idempotent liveStInProgress (by decide) (by decide)⟩

/-- The audio phase emits only `audioOut` effects. -/
theorem processInline_no_toolResponse (st : LiveState)
    (d : Option (String × Bytes)) :
    ∀ o ∈ (processInline st d).2, isToolResponseOut o = false := by
  intro o ho
  rcases d with _ | ⟨mime, data⟩ <;> simp only [processInline] at ho
  · simp at ho
  · split_ifs at ho <;> simp_all [isToolResponseOut]

/-- The text phase emits only `textOut` effects. -/
theorem processText_no_toolResponse (st : LiveState) (t : Option String) :
    ∀ o ∈ (processText st t).2, isToolResponseOut o = false := by
  intro o ho
  rcases t with _ | t <;> simp only [processText] at ho
  · simp at ho
  · split_ifs at ho <;> simp_all [isToolResponseOut]

/-- Processing one model-turn part emits only audio/text callbacks. -/
theorem processPart_no_toolResponse (st : LiveState) (p : RespPart) :
    ∀ o ∈ (processPart st p).2, isToolResponseOut o = false := by
  intro o ho
  simp only [processPart, List.mem_append] at ho
  rcases ho with ho | ho
  · exact processInline_no_toolResponse _ _ o ho
  · exact processText_no_toolResponse _ _ o ho

/-- Processing a list of model-turn parts emits only audio/text callbacks. -/
theorem processParts_no_toolResponse (st : LiveState) (ps : List RespPart) :
    ∀ o ∈ (processParts st ps).2, isToolResponseOut o = false := by
  induction ps generalizing st with
  | nil => intro o ho; simp [processParts] at ho
  | cons p ps ih =>
    intro o ho
    simp only [processParts, List.mem_append] at ho
    rcases ho with ho | ho
    · exact processPart_no_toolResponse st p o ho
    · exact ih _ o ho

/-- The model-turn phase emits only audio/text callbacks. -/
theorem modelTurnPhase_no_toolResponse (st : LiveState)
    (mt : Option (List RespPart)) :
    ∀ o ∈ (modelTurnPhase st mt).2, isToolResponseOut o = false := by
  intro o ho
  rcases mt with _ | ps <;> simp only [modelTurnPhase] at ho
  · simp at ho
  · exact processParts_no_toolResponse _ ps o ho

/-- The turn-complete phase emits at most the turn-complete notification. -/
theorem turnCompletePhase_no_toolResponse (st : LiveState) (b : Bool) :
    ∀ o ∈ (turnCompletePhase st b).2, isToolResponseOut o = false := by
  intro o ho
  cases b <;> simp only [turnCompletePhase] at ho
  · simp at ho
  · split_ifs at ho <;> simp_all [isToolResponseOut]

/-- Handling inbound server content emits only audio/text/turn-complete
effects. -/
theorem handleServerContent_no_toolResponse (st : LiveState)
    (c : ServerContent) :
    ∀ o ∈ (handleServerContent st c).2, isToolResponseOut o = false := by
  intro o ho
  simp only [handleServerContent, List.mem_append] at ho
  rcases ho with ho | ho
  · exact modelTurnPhase_no_toolResponse _ _ o ho
  · exact turnCompletePhase_no_toolResponse _ _ o ho

/-- The server-content phase emits only audio/text/turn-complete effects. -/
theorem serverContentPhase_no_toolResponse (st : LiveState)
    (sc : Option ServerContent) :
    ∀ o ∈ (serverContentPhase st sc).2, isToolResponseOut o = false := by
  intro o ho
  rcases sc with _ | c <;> simp only [serverContentPhase] at ho
  · simp at ho
  · exact handleServerContent_no_toolResponse _ c o ho

/-- C1 (refuted by the code): the tool-call branch of
`LiveSession._handle_response` references the loop variable `fc` without the
`for fc in response.tool_call.function_calls` header, so an inbound event
carrying a tool-call request makes the handler raise
`NameError: name 'fc' is not defined` before any handler is dispatched; zero
tool responses are sent back into the stream (the claim requires exactly one),
for this concrete event and, in fact, for every possible stream event. -/
theorem handle_response_tool_call_sends_no_response :
    (handleResponse liveSt0 respToolCall).err = some (.nameError "fc") ∧
    (handleResponse liveSt0 respToolCall).outs = [] ∧
    (∀ st resp, ∀ o ∈ (handleResponse st resp).outs,
      isToolResponseOut o = false) := by
  refine ⟨rfl, rfl, ?_⟩
  intro st resp o ho
  have h2 : (handleResponse st resp).outs =
      (serverContentPhase (resumptionPhase st resp.sessionResumptionUpdate)
        resp.serverContent).2 := by
    unfold handleResponse
    rcases resp.toolCall with _ | fcs <;> rfl
  rw [h2] at ho
  exact serverContentPhase_no_toolResponse _ _ o ho

/-- The clamp `min(max(s, 1), 5)` always lands in `[1, 5]`. -/
theorem clampSeverity_bounds (s : Int) :
    1 ≤ clampSeverity s ∧ clampSeverity s ≤ 5 := by
  unfold clampSeverity
  exact ⟨le_min (le_max_right s 1) (by norm_num), min_le_right _ _⟩

/-- C2 (refuted by the code): `GeminiLiveService.handle_tool_call` never
captures evidence, even at severity 3 with a frame buffered, because the
evidence-capture block calls `datetime.now()` in a module that never imports
`datetime`; the resulting `NameError` is caught and `evidence_url` stays
`None`.  The stored event carries no evidence reference and the acknowledgment
reports `evidence_captured = False`.  (The severity &lt; 3 half of the claim
does hold: at severity 2 no evidence is attempted either.) -/
theorem log_safety_event_evidence_never_captured :
    captureEvidenceAttempt = .error (.nameError "datetime") ∧
    (handleToolCall ctxWithFrame "s1" "log_safety_event" argsSev3 10 false).1.audit =
      [{ timestamp := 10, sessionId := "s1", eventType := "hazard_detected"
         severity := 3, description := "no guard rail", source := "ai"
         evidenceUrl := none }] ∧
    (handleToolCall ctxWithFrame "s1" "log_safety_event" argsSev3 10 false).2 =
      .ok { status := "logged", eventId := some 10
            evidenceCaptured := some false } ∧
    (handleToolCall ctxWithFrame "s1" "log_safety_event" argsSev2 10 false).2 =
      .ok { status := "logged", eventId := some 10
            evidenceCaptured := some false } := by
  exact ⟨rfl, by decide, rfl, rfl⟩

/-- C4 (refuted by the code): neither `AuditLogger._append_to_file` nor
`log_event` nor the `log_safety_event` branch of `handle_tool_call` guards the
audit-file append, so a write failure escapes the tool call and no structured
acknowledgment is returned. -/
theorem audit_write_error_escapes_tool_call :
    (handleToolCall ctxWithFrame "s1" "log_safety_event" argsSev2 4 true).2 =
      .error (.ioError "audit append failed") ∧
    ∀ r : ToolResult,
      (handleToolCall ctxWithFrame "s1" "log_safety_event" argsSev2 4 true).2 ≠
        .ok r := by
  refine ⟨rfl, ?_⟩
  intro r hr
  rw [show (handleToolCall ctxWithFrame "s1" "log_safety_event" argsSev2 4
      true).2 = .error (.ioError "audit append failed") from rfl] at hr
  exact Except.noConfusion hr

/-- C4 amended: the tools.py revision of `log_safety_event` wraps the
audit-file write in `try/except`, so a write failure is swallowed (nothing is
durably stored) and the structured `logged` acknowledgment is still
returned. -/
theorem agent_log_ack_despite_audit_failure (sessionFrame : Option Bytes)
    (sessionId eventType description : String) (severity : Int) (now : Nat)
    (saveEvidenceFails : Bool) :
    (agentLogSafetyEvent sessionFrame sessionId eventType severity description
        now saveEvidenceFails true).ackStatus = "logged" ∧
    (agentLogSafetyEvent sessionFrame sessionId eventType severity description
        now saveEvidenceFails true).storedEvent = none := by
  constructor <;> simp [agentLogSafetyEvent]

/-- C5 (refuted by the code): the tools.py revision of `log_safety_event`
stores the raw severity with no clamping anywhere on its path — severity 0
is written to the audit file as 0, outside `[1, 5]`. -/
theorem agent_severity_stored_unclamped :
    (agentLogSafetyEvent none "s1" "missing_ppe" 0 "no gloves" 3 false
        false).storedEvent =
      some { sessionId := "s1", eventType := "missing_ppe", severity := 0
             description := "no gloves", timestamp := 3, evidenceUrl := none
             source := "ai" } ∧
    ¬ (1 ≤ (agentLogSafetyEvent none "s1" "missing_ppe" 0 "no gloves" 3 false
        false).ackSeverity) := by
  constructor <;> decide

/-- C5 amended: on the `GeminiLiveService.handle_tool_call` path the stored
`SafetyEvent` severity is `min(max(severity, 1), 5)` (applied by
`AuditLogger.log_event`), always inside `[1, 5]`, with 0 clamped to 1 and 9
clamped to 5. -/
theorem handle_tool_call_severity_clamped (ctx : SvcCtx) (sessionId : String)
    (args : ToolArgs) (now : Nat) :
    ∃ ev : SafetyEvent,
      (handleToolCall ctx sessionId "log_safety_event" args now false).1.audit
        = ctx.audit ++ [ev] ∧
      ev.severity = clampSeverity (args.severity.getD 1) ∧
      1 ≤ ev.severity ∧ ev.severity ≤ 5 ∧
      clampSeverity 0 = 1 ∧ clampSeverity 9 = 5 := by
  refine ⟨_, rfl, rfl, (clampSeverity_bounds _).1, (clampSeverity_bounds _).2,
    by decide, by decide⟩

/-- C6: the `create_work_order` tool call appends nothing to any work-order
store and writes no audit event; its only state change is overwriting
`session.pending_work_order` with the new request, and it reports that badge
verification is required. -/
theorem create_work_order_only_sets_pending (ctx : SvcCtx) (sessionId : String)
    (args : ToolArgs) (now : Nat) (wf : Bool) (s : SvcSession)
    (hs : ctx.session = some s) :
    (handleToolCall ctx sessionId "create_work_order" args now wf).1.wo =
      ctx.wo ∧
    (handleToolCall ctx sessionId "create_work_order" args now wf).1.audit =
      ctx.audit ∧
    (handleToolCall ctx sessionId "create_work_order" args now wf).1.users =
      ctx.users ∧
    (handleToolCall ctx sessionId "create_work_order" args now wf).1.session =
      some { s with pendingWorkOrder := some (pendingRequestOf args) } ∧
    (handleToolCall ctx sessionId "create_work_order" args now wf).2 =
      .ok { status := "badge_verification_required" } := by
  unfold handleToolCall
  simp [hs]

/-- Witness for C6 at a concrete session (which already held a pending
request: the new request overwrites it). -/
theorem create_work_order_only_sets_pending_witness :
    ctxVerify.session = some sessWithPending ∧
    ((handleToolCall ctxVerify "s1" "create_work_order" argsCreateWO 2 false).1.wo =
       ctxVerify.wo ∧
     (handleToolCall ctxVerify "s1" "create_work_order" argsCreateWO 2 false).1.audit =
       ctxVerify.audit ∧
     (handleToolCall ctxVerify "s1" "create_work_order" argsCreateWO 2 false).1.users =
       ctxVerify.users ∧
     (handleToolCall ctxVerify "s1" "create_work_order" argsCreateWO 2 false).1.session =
       some { sessWithPending with
                pendingWorkOrder := some (pendingRequestOf argsCreateWO) } ∧
     (handleToolCall ctxVerify "s1" "create_work_order" argsCreateWO 2 false).2 =
       .ok { status := "badge_verification_required" }) :=
  ⟨rfl, create_work_order_only_sets_pending ctxVerify "s1" argsCreateWO 2 false
    sessWithPending rfl⟩

/-- C3: `verify_badge` with a pending work order present has exactly three
mutually exclusive outcomes.  (1) unknown employee id: result
`badge_not_found` and the whole state — pending request included — untouched;
(2) known and holding `create_work_order`: exactly one `approved` order
appended to the approved store, pending store and completed store unchanged,
`pending_work_order` cleared, result `authorized` with the new order id;
(3) known without the permission: exactly one `pending_approval` order with
escalation target `sup_007` appended to the pending store, other stores
unchanged, `pending_work_order` cleared, result `escalated` with the order
id. -/
theorem verify_badge_three_outcomes (ctx : SvcCtx) (sessionId : String)
    (args : ToolArgs) (now : Nat) (wf : Bool) (s : SvcSession) (p : PendingWO)
    (hs : ctx.session = some s) (hp : s.pendingWorkOrder = some p) :
    (dictGet ctx.users (args.employeeId.getD "") = none →
      (handleToolCall ctx sessionId "verify_badge" args now wf).1 = ctx ∧
      (handleToolCall ctx sessionId "verify_badge" args now wf).2 =
        .ok { status := "badge_not_found" }) ∧
    (∀ u, dictGet ctx.users (args.employeeId.getD "") = some u →
      "create_work_order" ∈ u.permissions →
      ∃ o : Order,
        (handleToolCall ctx sessionId "verify_badge" args now wf).1.wo.approved =
          ctx.wo.approved ++ [o] ∧
        o.status = .approved ∧
        (handleToolCall ctx sessionId "verify_badge" args now wf).1.wo.pending =
          ctx.wo.pending ∧
        (handleToolCall ctx sessionId "verify_badge" args now wf).1.wo.completed =
          ctx.wo.completed ∧
        (handleToolCall ctx sessionId "verify_badge" args now wf).1.session =
          some { s with pendingWorkOrder := none } ∧
        (handleToolCall ctx sessionId "verify_badge" args now wf).2 =
          .ok { status := "authorized", orderId := some o.orderId }) ∧
    (∀ u, dictGet ctx.users (args.employeeId.getD "") = some u →
      "create_work_order" ∉ u.permissions →
      ∃ o : Order,
        (handleToolCall ctx sessionId "verify_badge" args now wf).1.wo.pending =
          ctx.wo.pending ++ [o] ∧
        o.status = .pendingApproval ∧
        o.escalatedTo = some "sup_007" ∧
        (handleToolCall ctx sessionId "verify_badge" args now wf).1.wo.approved =
          ctx.wo.approved ∧
        (handleToolCall ctx sessionId "verify_badge" args now wf).1.wo.completed =
          ctx.wo.completed ∧
        (handleToolCall ctx sessionId "verify_badge" args now wf).1.session =
          some { s with pendingWorkOrder := none } ∧
        (handleToolCall ctx sessionId "verify_badge" args now wf).2 =
          .ok { status := "escalated", orderId := some o.orderId }) := by
  refine ⟨?_, ?_, ?_⟩
  · intro hd
    constructor <;> simp [handleToolCall, hd]
  · intro u hd hperm
    refine ⟨{ orderId := now, status := .approved, priority := p.priority
              equipment := p.equipmentId, description := p.description
              requestedBy := { id := args.employeeId.getD ""
                               name := args.employeeName.getD ""
                               role := u.role }
              badgeVerified := true, createdAt := now, approvedAt := some now
              completedAt := none, escalatedTo := none },
            ?_, rfl, ?_, ?_, ?_, ?_⟩ <;>
      simp [handleToolCall, hd, hperm, hs, hp, createWorkOrder, clearPending,
        pendingEquipment, pendingPriority, pendingDescription]
  · intro u hd hperm
    refine ⟨{ orderId := now, status := .pendingApproval, priority := p.priority
              equipment := p.equipmentId, description := p.description
              requestedBy := { id := args.employeeId.getD ""
                               name := args.employeeName.getD ""
                               role := u.role }
              badgeVerified := true, createdAt := now, approvedAt := none
              completedAt := none, escalatedTo := some "sup_007" },
            ?_, rfl, rfl, ?_, ?_, ?_, ?_⟩ <;>
      simp [handleToolCall, hd, hperm, hs, hp, escalateWorkOrder, clearPending,
        pendingEquipment, pendingPriority, pendingDescription]

/-- Witness for C3: the three-outcome theorem applied to a concrete directory
holding an authorized technician and an unauthorized intern, with a concrete
pending request on the session. -/
theorem verify_badge_three_outcomes_witness :
    (ctxVerify.session = some sessWithPending ∧
     sessWithPending.pendingWorkOrder = some pendingPump7) ∧
    ((dictGet ctxVerify.users (argsBadgeTech.employeeId.getD "") = none →
      (handleToolCall ctxVerify "s1" "verify_badge" argsBadgeTech 5 false).1 =
        ctxVerify ∧
      (handleToolCall ctxVerify "s1" "verify_badge" argsBadgeTech 5 false).2 =
        .ok { status := "badge_not_found" }) ∧
    (∀ u, dictGet ctxVerify.users (argsBadgeTech.employeeId.getD "") = some u →
      "create_work_order" ∈ u.permissions →
      ∃ o : Order,
        (handleToolCall ctxVerify "s1" "verify_badge" argsBadgeTech 5 false).1.wo.approved =
          ctxVerify.wo.approved ++ [o] ∧
        o.status = .approved ∧
        (handleToolCall ctxVerify "s1" "verify_badge" argsBadgeTech 5 false).1.wo.pending =
          ctxVerify.wo.pending ∧
        (handleToolCall ctxVerify "s1" "verify_badge" argsBadgeTech 5 false).1.wo.completed =
          ctxVerify.wo.completed ∧
        (handleToolCall ctxVerify "s1" "verify_badge" argsBadgeTech 5 false).1.session =
          some { sessWithPending with pendingWorkOrder := none } ∧
        (handleToolCall ctxVerify "s1" "verify_badge" argsBadgeTech 5 false).2 =
          .ok { status := "authorized", orderId := some o.orderId }) ∧
    (∀ u, dictGet ctxVerify.users (argsBadgeTech.employeeId.getD "") = some u →
      "create_work_order" ∉ u.permissions →
      ∃ o : Order,
        (handleToolCall ctxVerify "s1" "verify_badge" argsBadgeTech 5 false).1.wo.pending =
          ctxVerify.wo.pending ++ [o] ∧
        o.status = .pendingApproval ∧
        o.escalatedTo = some "sup_007" ∧
        (handleToolCall ctxVerify "s1" "verify_badge" argsBadgeTech 5 false).1.wo.approved =
          ctxVerify.wo.approved ∧
        (handleToolCall ctxVerify "s1" "verify_badge" argsBadgeTech 5 false).1.wo.completed =
          ctxVerify.wo.completed ∧
        (handleToolCall ctxVerify "s1" "verify_badge" argsBadgeTech 5 false).1.session =
          some { sessWithPending with pendingWorkOrder := none } ∧
        (handleToolCall ctxVerify "s1" "verify_badge" argsBadgeTech 5 false).2 =
          .ok { status := "escalated", orderId := some o.orderId })) :=
  ⟨⟨rfl, rfl⟩, verify_badge_three_outcomes ctxVerify "s1" argsBadgeTech 5 false
    sessWithPending pendingPump7 rfl rfl⟩

/-- `extractFirst` specification: a successful extraction returns an element
satisfying the predicate, and the input is a permutation of that element
consed onto the remainder. -/
theorem extractFirst_some {p : Order → Bool} :
    ∀ {l : List Order} {o : Order} {rest : List Order},
      extractFirst p l = some (o, rest) → p o = true ∧ l.Perm (o :: rest) := by
  intro l
  induction l with
  | nil => intro o rest h; simp [extractFirst] at h
  | cons x xs ih =>
    intro o rest h
    by_cases hx : p x
    · rw [extractFirst, if_pos hx] at h
      simp only [Option.some.injEq, Prod.mk.injEq] at h
      obtain ⟨rfl, rfl⟩ := h
      exact ⟨hx, List.Perm.refl _⟩
    · rw [extractFirst, if_neg hx] at h
      cases hxs : extractFirst p xs with
      | none => rw [hxs] at h; simp at h
      | some pr =>
        obtain ⟨o1, l1⟩ := pr
        rw [hxs] at h
        simp only [Option.some.injEq, Prod.mk.injEq] at h
        obtain ⟨rfl, rfl⟩ := h
        obtain ⟨hp1, hperm⟩ := ih hxs
        exact ⟨hp1, (hperm.cons x).trans (List.Perm.swap o1 x l1)⟩

/-- `extractFirst` returns `none` exactly when no element satisfies the
predicate. -/
theorem extractFirst_none {p : Order → Bool} :
    ∀ {l : List Order}, extractFirst p l = none → ∀ x ∈ l, p x = false := by
  intro l
  induction l with
  | nil => intro _ x hx; simp at hx
  | cons y ys ih =>
    intro h x hx
    by_cases hy : p y
    · rw [extractFirst, if_pos hy] at h; simp at h
    · rw [extractFirst, if_neg hy] at h
      cases hys : extractFirst p ys with
      | some pr => rw [hys] at h; cases pr; simp at h
      | none =>
        rcases List.mem_cons.mp hx with rfl | hx
        · simpa using hy
        · exact ih hys x hx

/-- An id present in a store is extractable. -/
theorem extractFirst_of_mem_ids {oid : Nat} {l : List Order}
    (h : oid ∈ idsOf l) :
    ∃ o rest, extractFirst (fun x => x.orderId = oid) l = some (o, rest) := by
  cases hx : extractFirst (fun x => x.orderId = oid) l with
  | some pr => exact ⟨pr.1, pr.2, rfl⟩
  | none =>
    exfalso
    obtain ⟨o, ho, hoid⟩ := List.mem_map.mp h
    have := extractFirst_none hx o ho
    simp [hoid] at this

/-- Membership in the ids of a store extended by one order. -/
theorem mem_idsOf_append_singleton {oid : Nat} {l : List Order} {o : Order} :
    oid ∈ idsOf (l ++ [o]) ↔ oid ∈ idsOf l ∨ oid = o.orderId := by
  simp [idsOf]

/-- `create_work_order` with a fresh id preserves store well-formedness. -/
theorem storesOk_create (st : WOState) (now : Nat) (e pr d : String)
    (rb : Requester) (h : storesOk st) (hF : now ∉ allIds st) :
    storesOk (createWorkOrder st now e pr d rb).1 := by
  obtain ⟨hP, hA, hC, hN⟩ := h
  simp only [allIds] at hN hF
  refine ⟨hP, ?_, hC, ?_⟩
  · intro o ho
    rcases List.mem_append.mp ho with ho | ho
    · exact hA o ho
    · simp at ho; subst ho; rfl
  · rw [show allIds (createWorkOrder st now e pr d rb).1 =
        idsOf st.pending ++ (idsOf st.approved ++ [now]) ++
          idsOf st.completed from by simp [allIds, idsOf, createWorkOrder]]
    have p1 : (idsOf st.approved ++ [now]).Perm (now :: idsOf st.approved) :=
      List.perm_append_singleton now _
    have p2 := (p1.append_left (idsOf st.pending)).trans List.perm_middle
    have p4 := p2.append_right (idsOf st.completed)
    exact (List.Perm.nodup_iff p4).mpr (List.nodup_cons.mpr ⟨hF, hN⟩)

/-- `escalate_work_order` with a fresh id preserves store well-formedness. -/
theorem storesOk_escalate (st : WOState) (now : Nat) (e pr d : String)
    (rb : Requester) (esc : String) (h : storesOk st) (hF : now ∉ allIds st) :
    storesOk (escalateWorkOrder st now e pr d rb esc).1 := by
  obtain ⟨hP, hA, hC, hN⟩ := h
  simp only [allIds] at hN hF
  refine ⟨?_, hA, hC, ?_⟩
  · intro o ho
    rcases List.mem_append.mp ho with ho | ho
    · exact hP o ho
    · simp at ho; subst ho; rfl
  · rw [show allIds (escalateWorkOrder st now e pr d rb esc).1 =
        (idsOf st.pending ++ [now]) ++ idsOf st.approved ++
          idsOf st.completed from by simp [allIds, idsOf, escalateWorkOrder]]
    have p1 : (idsOf st.pending ++ [now]).Perm (now :: idsOf st.pending) :=
      List.perm_append_singleton now _
    have p4 := (p1.append_right (idsOf st.approved)).append_right
      (idsOf st.completed)
    exact (List.Perm.nodup_iff p4).mpr (List.nodup_cons.mpr ⟨hF, hN⟩)

/-- `approve_pending_order` preserves store well-formedness. -/
theorem storesOk_approve (st : WOState) (now oid : Nat) (h : storesOk st) :
    storesOk (approvePendingOrder st now oid).1 := by
  obtain ⟨hP, hA, hC, hN⟩ := h
  cases hx : extractFirst (fun x => x.orderId = oid) st.pending with
  | none =>
    simp only [approvePendingOrder, hx]
    exact ⟨hP, hA, hC, hN⟩
  | some pr =>
    obtain ⟨o, rest⟩ := pr
    obtain ⟨hpo, hperm⟩ := extractFirst_some hx
    have hidsP : (idsOf st.pending).Perm (o.orderId :: idsOf rest) :=
      hperm.map _
    simp only [allIds] at hN
    have hbig := (List.Perm.nodup_iff
      ((hidsP.append_right (idsOf st.approved)).append_right
        (idsOf st.completed))).mp hN
    rw [List.cons_append, List.cons_append, List.nodup_cons] at hbig
    obtain ⟨hnotin, hnd⟩ := hbig
    simp only [approvePendingOrder, hx]
    refine ⟨?_, ?_, hC, ?_⟩
    · intro o2 h2
      exact hP o2 (hperm.symm.subset (List.mem_cons_of_mem _ h2))
    · intro o2 h2
      rcases List.mem_append.mp h2 with h2 | h2
      · exact hA o2 h2
      · simp at h2; subst h2; rfl
    · suffices hs : ((idsOf rest ++ (idsOf st.approved ++ [o.orderId])) ++
          idsOf st.completed).Nodup by
        simpa [allIds, idsOf] using hs
      have p1 : (idsOf st.approved ++ [o.orderId]).Perm
          (o.orderId :: idsOf st.approved) := List.perm_append_singleton _ _
      have p2 := (p1.append_left (idsOf rest)).trans List.perm_middle
      have p4 := p2.append_right (idsOf st.completed)
      exact (List.Perm.nodup_iff p4).mpr (List.nodup_cons.mpr ⟨hnotin, hnd⟩)

/-- `complete_order` preserves store well-formedness. -/
theorem storesOk_complete (st : WOState) (now oid : Nat) (h : storesOk st) :
    storesOk (completeOrder st now oid).1 := by
  obtain ⟨hP, hA, hC, hN⟩ := h
  cases hx : extractFirst (fun x => x.orderId = oid) st.approved with
  | none =>
    simp only [completeOrder, hx]
    exact ⟨hP, hA, hC, hN⟩
  | some pr =>
    obtain ⟨o, rest⟩ := pr
    obtain ⟨hpo, hperm⟩ := extractFirst_some hx
    have hidsA : (idsOf st.approved).Perm (o.orderId :: idsOf rest) :=
      hperm.map _
    simp only [allIds] at hN
    have hbig := (List.Perm.nodup_iff
      (((hidsA.append_left (idsOf st.pending)).trans
        List.perm_middle).append_right (idsOf st.completed))).mp hN
    rw [List.cons_append, List.nodup_cons] at hbig
    obtain ⟨hnotin, hnd⟩ := hbig
    simp only [completeOrder, hx]
    refine ⟨hP, ?_, ?_, ?_⟩
    · intro o2 h2
      exact hA o2 (hperm.symm.subset (List.mem_cons_of_mem _ h2))
    · intro o2 h2
      rcases List.mem_append.mp h2 with h2 | h2
      · exact hC o2 h2
      · simp at h2; subst h2; rfl
    · suffices hs : ((idsOf st.pending ++ idsOf rest) ++
          (idsOf st.completed ++ [o.orderId])).Nodup by
        simpa [allIds, idsOf] using hs
      have p1 : (idsOf st.completed ++ [o.orderId]).Perm
          (o.orderId :: idsOf st.completed) := List.perm_append_singleton _ _
      have p2 := (p1.append_left (idsOf st.pending ++ idsOf rest)).trans
        List.perm_middle
      exact (List.Perm.nodup_iff p2).mpr (List.nodup_cons.mpr ⟨hnotin, hnd⟩)

/-- Creating a fresh order leaves every existing order in its store. -/
theorem whereIs_create (st : WOState) (now : Nat) (e pr d : String)
    (rb : Requester) (hF : now ∉ allIds st) (oid : Nat) (s : WOStatus)
    (hw : whereIs st oid = some s) :
    whereIs (createWorkOrder st now e pr d rb).1 oid = some s := by
  simp only [allIds, List.mem_append, not_or] at hF
  obtain ⟨⟨hFP, hFA⟩, hFC⟩ := hF
  unfold whereIs at hw ⊢
  split_ifs at hw with h1 h2 h3
  · simp only [createWorkOrder] at h1 ⊢
    rw [if_pos h1]
    exact hw
  · have hne : oid ≠ now := fun hc => hFA (hc ▸ h2)
    simp [createWorkOrder, mem_idsOf_append_singleton, h1, h2, hne] at hw ⊢
    exact hw
  · have hne : oid ≠ now := fun hc => hFC (hc ▸ h3)
    simp [createWorkOrder, mem_idsOf_append_singleton, h1, h2, hne, h3]
      at hw ⊢
    try exact hw

/-- Escalating a fresh order leaves every existing order in its store. -/
theorem whereIs_escalate (st : WOState) (now : Nat) (e pr d : String)
    (rb : Requester) (esc : String) (hF : now ∉ allIds st) (oid : Nat)
    (s : WOStatus) (hw : whereIs st oid = some s) :
    whereIs (escalateWorkOrder st now e pr d rb esc).1 oid = some s := by
  simp only [allIds, List.mem_append, not_or] at hF
  obtain ⟨⟨hFP, hFA⟩, hFC⟩ := hF
  unfold whereIs at hw ⊢
  split_ifs at hw with h1 h2 h3
  · simp [escalateWorkOrder, mem_idsOf_append_singleton, h1] at hw ⊢
    exact hw
  · have hne : oid ≠ now := fun hc => hFA (hc ▸ h2)
    simp [escalateWorkOrder, mem_idsOf_append_singleton, h1, h2, hne]
      at hw ⊢
    exact hw
  · have hne : oid ≠ now := fun hc => hFC (hc ▸ h3)
    simp [escalateWorkOrder, mem_idsOf_append_singleton, h1, h2, hne, h3]
      at hw ⊢
    try exact hw

/-- Existing orders only move forward (or stay put) under
`approve_pending_order`. -/
theorem whereIs_approve_mono (st : WOState) (now oid0 : Nat)
    (h : storesOk st) (oid : Nat) (s : WOStatus)
    (hw : whereIs st oid = some s) :
    ∃ t, whereIs (approvePendingOrder st now oid0).1 oid = some t ∧
      statusRank s ≤ statusRank t := by
  obtain ⟨hP, hA, hC, hN⟩ := h
  cases hx : extractFirst (fun x => x.orderId = oid0) st.pending with
  | none =>
    refine ⟨s, ?_, le_refl _⟩
    simpa only [approvePendingOrder, hx] using hw
  | some pr =>
    obtain ⟨o, rest⟩ := pr
    obtain ⟨hpo, hperm⟩ := extractFirst_some hx
    have hidsP : (idsOf st.pending).Perm (o.orderId :: idsOf rest) :=
      hperm.map _
    simp only [allIds] at hN
    have hbig := (List.Perm.nodup_iff
      ((hidsP.append_right (idsOf st.approved)).append_right
        (idsOf st.completed))).mp hN
    rw [List.cons_append, List.cons_append, List.nodup_cons] at hbig
    obtain ⟨hnotin, -⟩ := hbig
    simp only [List.mem_append, not_or] at hnotin
    obtain ⟨⟨hninR, hninA⟩, hninC⟩ := hnotin
    have hmemP : oid ∈ idsOf st.pending ↔
        oid = o.orderId ∨ oid ∈ idsOf rest := by
      rw [hidsP.mem_iff]; simp
    have hoinP : o.orderId ∈ idsOf st.pending :=
      hidsP.mem_iff.mpr (by simp)
    simp only [approvePendingOrder, hx]
    unfold whereIs at hw ⊢
    split_ifs at hw with h1 h2 h3
    · obtain rfl : s = .pendingApproval := by
        injection hw with hw2; exact hw2.symm
      rcases hmemP.mp h1 with rfl | hR
      · refine ⟨.approved, ?_, by simp [statusRank]⟩
        simp [hninR, mem_idsOf_append_singleton]
      · refine ⟨.pendingApproval, ?_, le_refl _⟩
        simp [hR]
    · obtain rfl : s = .approved := by
        injection hw with hw2; exact hw2.symm
      have hnR : oid ∉ idsOf rest :=
        fun hc => h1 (hmemP.mpr (Or.inr hc))
      refine ⟨.approved, ?_, le_refl _⟩
      simp [hnR, mem_idsOf_append_singleton, h2]
    · obtain rfl : s = .completed := by
        injection hw with hw2; exact hw2.symm
      have hnR : oid ∉ idsOf rest :=
        fun hc => h1 (hmemP.mpr (Or.inr hc))
      have hne : oid ≠ o.orderId := fun hc => h1 (hc ▸ hoinP)
      refine ⟨.completed, ?_, le_refl _⟩
      simp [hnR, mem_idsOf_append_singleton, h2, hne, h3]

/-- Existing orders only move forward (or stay put) under `complete_order`. -/
theorem whereIs_complete_mono (st : WOState) (now oid0 : Nat)
    (h : storesOk st) (oid : Nat) (s : WOStatus)
    (hw : whereIs st oid = some s) :
    ∃ t, whereIs (completeOrder st now oid0).1 oid = some t ∧
      statusRank s ≤ statusRank t := by
  obtain ⟨hP, hA, hC, hN⟩ := h
  cases hx : extractFirst (fun x => x.orderId = oid0) st.approved with
  | none =>
    refine ⟨s, ?_, le_refl _⟩
    simpa only [completeOrder, hx] using hw
  | some pr =>
    obtain ⟨o, rest⟩ := pr
    obtain ⟨hpo, hperm⟩ := extractFirst_some hx
    have hidsA : (idsOf st.approved).Perm (o.orderId :: idsOf rest) :=
      hperm.map _
    simp only [allIds] at hN
    have hbig := (List.Perm.nodup_iff
      (((hidsA.append_left (idsOf st.pending)).trans
        List.perm_middle).append_right (idsOf st.completed))).mp hN
    rw [List.cons_append, List.nodup_cons] at hbig
    obtain ⟨hnotin, -⟩ := hbig
    simp only [List.mem_append, not_or] at hnotin
    obtain ⟨⟨hninP, hninR⟩, hninC⟩ := hnotin
    have hmemA : oid ∈ idsOf st.approved ↔
        oid = o.orderId ∨ oid ∈ idsOf rest := by
      rw [hidsA.mem_iff]; simp
    have hoinA : o.orderId ∈ idsOf st.approved :=
      hidsA.mem_iff.mpr (by simp)
    simp only [completeOrder, hx]
    unfold whereIs at hw ⊢
    split_ifs at hw with h1 h2 h3
    · obtain rfl : s = .pendingApproval := by
        injection hw with hw2; exact hw2.symm
      refine ⟨.pendingApproval, ?_, le_refl _⟩
      simp [h1]
    · obtain rfl : s = .approved := by
        injection hw with hw2; exact hw2.symm
      rcases hmemA.mp h2 with rfl | hR
      · refine ⟨.completed, ?_, by simp [statusRank]⟩
        simp [h1, hninR, mem_idsOf_append_singleton]
      · refine ⟨.approved, ?_, le_refl _⟩
        simp [h1, hR]
    · obtain rfl : s = .completed := by
        injection hw with hw2; exact hw2.symm
      have hnR : oid ∉ idsOf rest :=
        fun hc => h2 (hmemA.mpr (Or.inr hc))
      have hne : oid ≠ o.orderId := fun hc => h2 (hc ▸ hoinA)
      refine ⟨.completed, ?_, le_refl _⟩
      simp [h1, hnR, mem_idsOf_append_singleton, h3, hne]

/-- A pending order is moved to the approved store (with advanced status) by
`approve_pending_order`. -/
theorem whereIs_approve_moves (st : WOState) (now oid : Nat)
    (h : storesOk st) (hm : oid ∈ idsOf st.pending) :
    whereIs (approvePendingOrder st now oid).1 oid = some .approved := by
  obtain ⟨hP, hA, hC, hN⟩ := h
  obtain ⟨o, rest, hx⟩ := extractFirst_of_mem_ids hm
  obtain ⟨hpo, hperm⟩ := extractFirst_some hx
  have hoid : o.orderId = oid := by simpa using hpo
  have hPnd : (idsOf st.pending).Nodup := by
    simp only [allIds] at hN
    exact (List.nodup_append.mp ((List.nodup_append.mp hN).1)).1
  have hninR : oid ∉ idsOf rest := by
    have hcons := (List.Perm.nodup_iff (hperm.map Order.orderId)).mp hPnd
    rw [List.map_cons, hoid] at hcons
    exact (List.nodup_cons.mp hcons).1
  simp only [approvePendingOrder, hx]
  unfold whereIs
  simp [hninR, mem_idsOf_append_singleton, hoid]

/-- An approved order is moved to the completed store (with advanced status)
by `complete_order`. -/
theorem whereIs_complete_moves (st : WOState) (now oid : Nat)
    (h : storesOk st) (hm : oid ∈ idsOf st.approved) :
    whereIs (completeOrder st now oid).1 oid = some .completed := by
  obtain ⟨hP, hA, hC, hN⟩ := h
  obtain ⟨o, rest, hx⟩ := extractFirst_of_mem_ids hm
  obtain ⟨hpo, hperm⟩ := extractFirst_some hx
  have hoid : o.orderId = oid := by simpa using hpo
  simp only [allIds] at hN
  have hAnd : (idsOf st.approved).Nodup := by
    exact (List.nodup_append.mp ((List.nodup_append.mp hN).1)).2.1
  have hninR : oid ∉ idsOf rest := by
    have hcons := (List.Perm.nodup_iff (hperm.map Order.orderId)).mp hAnd
    rw [List.map_cons, hoid] at hcons
    exact (List.nodup_cons.mp hcons).1
  have hninP : oid ∉ idsOf st.pending := by
    intro hc
    have hdisj := (List.nodup_append.mp ((List.nodup_append.mp hN).1)).2.2
    exact hdisj hc hm
  simp only [completeOrder, hx]
  unfold whereIs
  simp [hninP, hninR, mem_idsOf_append_singleton, hoid]

/-- C8: over the work-order store operations, well-formedness (every order in
exactly one store, each store holding only its own status) is preserved —
creation operations assuming a fresh generated id — and an order's lifecycle
position only advances `pending_approval → approved → completed`; moreover
`approve_pending_order` and `complete_order` move a present order from the
source store to the next store with the advanced status. -/
theorem work_order_store_invariant (st : WOState) (op : WOOp)
    (hInv : storesOk st) (hF : opFresh st op) :
    storesOk (applyWOOp st op) ∧
    (∀ oid s, whereIs st oid = some s →
      ∃ t, whereIs (applyWOOp st op) oid = some t ∧
        statusRank s ≤ statusRank t) ∧
    (∀ now2 oid, oid ∈ idsOf st.pending →
      whereIs (applyWOOp st (.approve now2 oid)) oid = some .approved) ∧
    (∀ now2 oid, oid ∈ idsOf st.approved →
      whereIs (applyWOOp st (.complete now2 oid)) oid = some .completed) := by
  refine ⟨?_, ?_, ?_, ?_⟩
  · cases op with
    | create now e pr d rb => exact storesOk_create st now e pr d rb hInv hF
    | escalate now e pr d rb esc =>
        exact storesOk_escalate st now e pr d rb esc hInv hF
    | approve now oid => exact storesOk_approve st now oid hInv
    | complete now oid => exact storesOk_complete st now oid hInv
  · intro oid s hw
    cases op with
    | create now e pr d rb =>
        exact ⟨s, whereIs_create st now e pr d rb hF oid s hw, le_refl _⟩
    | escalate now e pr d rb esc =>
        exact ⟨s, whereIs_escalate st now e pr d rb esc hF oid s hw, le_refl _⟩
    | approve now oid0 => exact whereIs_approve_mono st now oid0 hInv oid s hw
    | complete now oid0 => exact whereIs_complete_mono st now oid0 hInv oid s hw
  · intro now2 oid hm
    exact whereIs_approve_moves st now2 oid hInv hm
  · intro now2 oid hm
    exact whereIs_complete_moves st now2 oid hInv hm

/-- Witness for C8: the invariant theorem applied to the empty stores and a
concrete creation. -/
theorem work_order_store_invariant_witness :
    (storesOk woSt0 ∧ opFresh woSt0 woOp0) ∧
    (storesOk (applyWOOp woSt0 woOp0) ∧
     (∀ oid s, whereIs woSt0 oid = some s →
       ∃ t, whereIs (applyWOOp woSt0 woOp0) oid = some t ∧
         statusRank s ≤ statusRank t) ∧
     (∀ now2 oid, oid ∈ idsOf woSt0.pending →
       whereIs (applyWOOp woSt0 (.approve now2 oid)) oid = some .approved) ∧
     (∀ now2 oid, oid ∈ idsOf woSt0.approved →
       whereIs (applyWOOp woSt0 (.complete now2 oid)) oid = some .completed)) :=
  ⟨⟨by constructor <;> simp [storesOk, allIds, idsOf, woSt0],
     by simp [opFresh, woOp0, allIds, idsOf, woSt0]⟩,
   work_order_store_invariant woSt0 woOp0
     (by constructor <;> simp [storesOk, allIds, idsOf, woSt0])
     (by simp [opFresh, woOp0, allIds, idsOf, woSt0])⟩
